import Mathlib

/-!
Verification development for `fix_encoding.py`, a utility that repairs
mis-decoded (mojibake) text in web-related files.

The program is shallowly embedded:
* Python `str` values become `List Char` (`Text`); `str.count` and
  `str.replace` become `pyCount` and `pyReplace`, fuel-indexed structural
  recursions so that the kernel can evaluate them on concrete inputs.
* The `ENCODING_FIXES` dict literal becomes an ordered association list,
  built from the written pairs with Python dict-literal semantics
  (a repeated key keeps its original position but takes the latest value).
* Files are byte lists; the four trial decodings (`utf-8`, `windows-1252`,
  `iso-8859-1`, `cp1252`) are modelled exactly, as is the per-file
  read/substitute/backup/write workflow and the directory walker.
-/

/-- Python `str` is modelled as a list of Unicode characters. -/
abbrev Text := List Char

/-- Fuel-indexed scanner behind `pyCount`.  The fuel only serves to make the
recursion structural; `pyCount` always supplies enough fuel. -/
def pyCountAux (p : Text) : Nat → Text → Nat
  | _, [] => 0
  | 0, _ => 0
  | fuel + 1, c :: rest =>
    if p.isPrefixOf (c :: rest) then
      pyCountAux p fuel (rest.drop (p.length - 1)) + 1
    else
      pyCountAux p fuel rest

/-- Model of Python `str.count`: the number of non-overlapping literal
occurrences of `p` in `s`, scanning left to right. -/
def pyCount (p s : Text) : Nat := pyCountAux p s.length s

/-- Fuel-indexed scanner behind `pyReplace`. -/
def pyReplaceAux (p r : Text) : Nat → Text → Text
  | _, [] => []
  | 0, s => s
  | fuel + 1, c :: rest =>
    if p.isPrefixOf (c :: rest) then
      r ++ pyReplaceAux p r fuel (rest.drop (p.length - 1))
    else
      c :: pyReplaceAux p r fuel rest

/-- Model of Python `str.replace`: replace every non-overlapping literal
occurrence of `p` in `s` by `r`, scanning left to right. -/
def pyReplace (p r s : Text) : Text := pyReplaceAux p r s.length s

/-- Decidable "some occurrence of `p` appears somewhere in `s`". -/
def hasOccur (p : Text) : Text → Bool
  | [] => p.isPrefixOf []
  | c :: rest => p.isPrefixOf (c :: rest) || hasOccur p rest

theorem pyCountAux_fuel_eq (p : Text) :
    ∀ (f₁ f₂ : Nat) (s : Text), s.length ≤ f₁ → s.length ≤ f₂ →
      pyCountAux p f₁ s = pyCountAux p f₂ s := by
  intro f₁
  induction f₁ with
  | zero =>
    intro f₂ s h1 _
    cases s with
    | nil => cases f₂ <;> rfl
    | cons c rest => simp at h1
  | succ f ih =>
    intro f₂ s h1 h2
    cases s with
    | nil => cases f₂ <;> rfl
    | cons c rest =>
      cases f₂ with
      | zero => simp at h2
      | succ g =>
        simp only [pyCountAux]
        by_cases hp : p.isPrefixOf (c :: rest)
        · rw [if_pos hp, if_pos hp]
          have hd : (rest.drop (p.length - 1)).length ≤ rest.length := by
            simp [List.length_drop]
          have := ih g (rest.drop (p.length - 1))
            (by simp at h1; omega) (by simp at h2; omega)
          omega
        · rw [if_neg hp, if_neg hp]
          exact ih g rest (by simp at h1; omega) (by simp at h2; omega)

theorem pyCount_nil (p : Text) : pyCount p [] = 0 := rfl

theorem pyCount_cons (p : Text) (c : Char) (rest : Text) :
    pyCount p (c :: rest) =
      if p.isPrefixOf (c :: rest) then pyCount p (rest.drop (p.length - 1)) + 1
      else pyCount p rest := by
  show pyCountAux p (rest.length + 1) (c :: rest) = _
  simp only [pyCountAux]
  by_cases hp : p.isPrefixOf (c :: rest)
  · rw [if_pos hp, if_pos hp]
    have h1 : (rest.drop (p.length - 1)).length ≤ rest.length := by
      simp [List.length_drop]
    have h := pyCountAux_fuel_eq p rest.length (rest.drop (p.length - 1)).length
      (rest.drop (p.length - 1)) h1 (le_refl _)
    unfold pyCount
    omega
  · rw [if_neg hp, if_neg hp]
    rfl

theorem pyReplaceAux_fuel_eq (p r : Text) :
    ∀ (f₁ f₂ : Nat) (s : Text), s.length ≤ f₁ → s.length ≤ f₂ →
      pyReplaceAux p r f₁ s = pyReplaceAux p r f₂ s := by
  intro f₁
  induction f₁ with
  | zero =>
    intro f₂ s h1 _
    cases s with
    | nil => cases f₂ <;> rfl
    | cons c rest => simp at h1
  | succ f ih =>
    intro f₂ s h1 h2
    cases s with
    | nil => cases f₂ <;> rfl
    | cons c rest =>
      cases f₂ with
      | zero => simp at h2
      | succ g =>
        simp only [pyReplaceAux]
        by_cases hp : p.isPrefixOf (c :: rest)
        · rw [if_pos hp, if_pos hp]
          have := ih g (rest.drop (p.length - 1))
            (by simp at h1; simp [List.length_drop]; omega)
            (by simp at h2; simp [List.length_drop]; omega)
          rw [this]
        · rw [if_neg hp, if_neg hp]
          rw [ih g rest (by simp at h1; omega) (by simp at h2; omega)]

theorem pyReplace_nil (p r : Text) : pyReplace p r [] = [] := rfl

theorem pyReplace_cons (p r : Text) (c : Char) (rest : Text) :
    pyReplace p r (c :: rest) =
      if p.isPrefixOf (c :: rest) then r ++ pyReplace p r (rest.drop (p.length - 1))
      else c :: pyReplace p r rest := by
  show pyReplaceAux p r (rest.length + 1) (c :: rest) = _
  simp only [pyReplaceAux]
  by_cases hp : p.isPrefixOf (c :: rest)
  · rw [if_pos hp, if_pos hp]
    have h1 : (rest.drop (p.length - 1)).length ≤ rest.length := by
      simp [List.length_drop]
    rw [pyReplaceAux_fuel_eq p r rest.length (rest.drop (p.length - 1)).length
      (rest.drop (p.length - 1)) h1 (le_refl _)]
    rfl
  · rw [if_neg hp, if_neg hp]
    rfl

/-- The pairs of the `ENCODING_FIXES` dict literal in `fix_encoding.py`, in
source order.  The literal contains 41 written pairs; the pairs at indices
39 and 40 share the same key (the garbled arrow sequence). -/
def ENCODING_FIXES_SOURCE : List (String × String) := [
  ("\u00c3\u0192\u00c2\u00bc", "\u00fc"),
  ("\u00c3\u0192\u00c2\u00a4", "\u00e4"),
  ("\u00c3\u0192\u00c2\u00b6", "\u00f6"),
  ("\u00c3\u0192\u00c5\u00b8", "\u00df"),
  ("\u00c3\u0192\u00c5\u00a1", "\u00df"),
  ("\u00c3\u0192\u00c2\u201e", "\u00c4"),
  ("\u00c3\u0192\u00c2\u2013", "\u00d6"),
  ("\u00c3\u0192\u00c5", "\u00dc"),
  ("\u00c3\u00bc", "\u00fc"),
  ("\u00c3\u00a4", "\u00e4"),
  ("\u00c3\u00b6", "\u00f6"),
  ("\u00c3\u0178", "\u00df"),
  ("\u00c3\u201e", "\u00c4"),
  ("\u00c3\u2013", "\u00d6"),
  ("\u00c3\u0153", "\u00dc"),
  ("sp\u00c3\u00a4ter", "sp\u00e4ter"),
  ("m\u00c3\u00bcssen", "m\u00fcssen"),
  ("f\u00c3\u00bcr", "f\u00fcr"),
  ("\u00c3\u00bcber", "\u00fcber"),
  ("erf\u00c3\u00bcllt", "erf\u00fcllt"),
  ("ausf\u00c3\u00bcllen", "ausf\u00fcllen"),
  ("zur\u00c3\u00bcck", "zur\u00fcck"),
  ("Gr\u00c3\u00bc\u00c3\u0178en", "Gr\u00fc\u00dfen"),
  ("best\u00c3\u00a4tigen", "best\u00e4tigen"),
  ("Ung\u00c3\u00bcltig", "Ung\u00fcltig"),
  ("g\u00c3\u00bcltig", "g\u00fcltig"),
  ("St\u00c3\u00a4rke", "St\u00e4rke"),
  ("Gro\u00c3\u0178buchstabe", "Gro\u00dfbuchstabe"),
  ("w\u00c3\u00a4hlen", "w\u00e4hlen"),
  ("Ben\u00c3\u00b6tigt", "Ben\u00f6tigt"),
  ("Funktionalit\u00c3\u00a4t", "Funktionalit\u00e4t"),
  ("Pers\u00c3\u00b6nliche", "Pers\u00f6nliche"),
  ("VOLLST\u00c3\u201eNDIG", "VOLLST\u00c4NDIG"),
  ("\u00e2\u201a\u00ac", "\u20ac"),
  ("\u00e2\u20ac\u0153", "\u201c"),
  ("\u00e2\u20ac\ufffd", "\u201d"),
  ("\u00e2\u20ac\u2122", "\u2019"),
  ("\u00e2\u20ac\u201c", "\u2013"),
  ("\u00e2\u20ac\u201d", "\u2014"),
  ("\u00e2\u2020\u2019", "\u2190"),
  ("\u00e2\u2020\u2019", "\u2192")]

/-- Insert one key/value pair with Python dict semantics: a key already
present keeps its original position but takes the new value; a new key is
appended at the end. -/
def dictInsert (m : List (String × String)) (k v : String) :
    List (String × String) :=
  if m.any (fun e => e.1 == k) then
    m.map (fun e => if e.1 == k then (k, v) else e)
  else
    m ++ [(k, v)]

/-- Evaluate a dict literal: insert the written pairs left to right. -/
def mkDict (l : List (String × String)) : List (String × String) :=
  l.foldl (fun m kv => dictInsert m kv.1 kv.2) []

/-- The realized `ENCODING_FIXES` dict, as an ordered association list
(iteration order = insertion order, duplicate keys collapsed with the last
value winning). -/
def ENCODING_FIXES : List (String × String) := mkDict ENCODING_FIXES_SOURCE

/-- One iteration of the correction loop in `process_file`
(`fix_encoding.py` lines 141-146): count the occurrences of the broken
pattern in the current text; if nonzero, replace them all and add the count
to the running total. -/
def applyFixesStep (acc : Nat × Text) (kv : String × String) : Nat × Text :=
  if pyCount kv.1.data acc.2 > 0 then
    (acc.1 + pyCount kv.1.data acc.2, pyReplace kv.1.data kv.2.data acc.2)
  else
    acc

/-- The full substitution pass of `process_file`: fold the correction loop
over the table entries in iteration order, starting from total 0. -/
def processText (fixes : List (String × String)) (s : Text) : Nat × Text :=
  fixes.foldl applyFixesStep (0, s)

/-- Spec-side description: the list of per-entry occurrence counts, each
computed on the text as it stands when that entry is reached. -/
def perEntryCounts : List (String × String) → Text → List Nat
  | [], _ => []
  | kv :: rest, s =>
    pyCount kv.1.data s :: perEntryCounts rest (pyReplace kv.1.data kv.2.data s)

/-- Spec-side description: apply each entry's replace-all in table order,
each entry acting on the result of the previous ones. -/
def applySeq : List (String × String) → Text → Text
  | [], s => s
  | kv :: rest, s => applySeq rest (pyReplace kv.1.data kv.2.data s)

/-- If a pattern does not occur in a text, replacing it is the identity. -/
theorem pyReplace_of_count_zero (p r : Text) :
    ∀ (n : Nat) (s : Text), s.length ≤ n → pyCount p s = 0 → pyReplace p r s = s := by
  intro n
  induction n with
  | zero =>
    intro s hs _
    cases s with
    | nil => rfl
    | cons c rest => simp at hs
  | succ m ih =>
    intro s hs h0
    cases s with
    | nil => rfl
    | cons c rest =>
      rw [pyCount_cons] at h0
      rw [pyReplace_cons]
      by_cases hp : p.isPrefixOf (c :: rest)
      · rw [if_pos hp] at h0; omega
      · rw [if_neg hp] at h0
        rw [if_neg hp, ih rest (by simp at hs; omega) h0]

/-- The step of the correction loop only ever adds to the running total. -/
theorem applyFixesStep_shift (n : Nat) (s : Text) (kv : String × String) :
    applyFixesStep (n, s) kv =
      (n + (applyFixesStep (0, s) kv).1, (applyFixesStep (0, s) kv).2) := by
  unfold applyFixesStep
  by_cases hc : pyCount kv.1.data s > 0 <;> simp [hc]

/-- The running total in the fold is threaded additively. -/
theorem processText_foldl_shift :
    ∀ (fixes : List (String × String)) (n : Nat) (s : Text),
      List.foldl applyFixesStep (n, s) fixes =
        (n + (List.foldl applyFixesStep (0, s) fixes).1,
          (List.foldl applyFixesStep (0, s) fixes).2) := by
  intro fixes
  induction fixes with
  | nil => intro n s; simp
  | cons kv rest ih =>
    intro n s
    simp only [List.foldl_cons]
    rcases h : applyFixesStep (0, s) kv with ⟨d, t⟩
    have hn : applyFixesStep (n, s) kv = (n + d, t) := by
      rw [applyFixesStep_shift n s kv, h]
    rw [hn, ih (n + d) t, ih d t]
    simp [Nat.add_assoc]

/-- Refinement: the fold of `process_file` computes exactly the sum of the
per-entry occurrence counts and the sequential replace-all text. -/
theorem processText_eq (fixes : List (String × String)) :
    ∀ s : Text, processText fixes s = ((perEntryCounts fixes s).sum, applySeq fixes s) := by
  induction fixes with
  | nil => intro s; rfl
  | cons kv rest ih =>
    intro s
    show List.foldl applyFixesStep (applyFixesStep (0, s) kv) rest = _
    by_cases hc : pyCount kv.1.data s > 0
    · have h : applyFixesStep (0, s) kv =
          (pyCount kv.1.data s, pyReplace kv.1.data kv.2.data s) := by
        unfold applyFixesStep
        rw [if_pos hc]
        simp
      rw [h, processText_foldl_shift rest _ _]
      have hrec := ih (pyReplace kv.1.data kv.2.data s)
      unfold processText at hrec
      rw [hrec]
      simp [perEntryCounts, applySeq]
    · have h0 : pyCount kv.1.data s = 0 := by omega
      have h : applyFixesStep (0, s) kv = (0, s) := by
        unfold applyFixesStep
        rw [if_neg hc]
      have hrep : pyReplace kv.1.data kv.2.data s = s :=
        pyReplace_of_count_zero _ _ s.length s (le_refl _) h0
      rw [h]
      have hrec := ih s
      unfold processText at hrec
      rw [hrec]
      simp [perEntryCounts, applySeq, h0, hrep]


/-- A nonempty pattern never occurs in the empty text. -/
theorem hasOccur_nil_of_ne (p : Text) (hp : p ≠ []) : hasOccur p [] = false := by
  cases p with
  | nil => exact absurd rfl hp
  | cons p₀ p' => simp [hasOccur, List.isPrefixOf]

/-- Prepending characters that do not appear in a nonempty pattern cannot
create an occurrence of it. -/
theorem hasOccur_append_eq_false (p X : Text) (hp : p ≠ [])
    (hX : hasOccur p X = false) :
    ∀ r : Text, (∀ c ∈ r, c ∉ p) → hasOccur p (r ++ X) = false := by
  intro r
  induction r with
  | nil => intro _; simpa using hX
  | cons e r' ih =>
    intro hdis
    cases p with
    | nil => exact absurd rfl hp
    | cons p₀ p' =>
      have he : e ∉ p₀ :: p' := hdis e (List.mem_cons_self e r')
      have hne : (p₀ == e) = false := by
        by_cases hEq : p₀ = e
        · subst hEq
          exact absurd (List.mem_cons_self p₀ p') he
        · simp [hEq]
      simp only [List.cons_append, hasOccur, List.isPrefixOf, hne, Bool.false_and,
        Bool.false_or]
      exact ih (fun c hc => hdis c (List.mem_cons_of_mem e hc))

/-- If a nonempty word avoiding the replacement's characters is a prefix of
the replaced text, it already was a prefix of the original text. -/
theorem isPrefixOf_pyReplace_imp (p r : Text) (hr : r ≠ []) :
    ∀ (n : Nat) (t q : Text), t.length ≤ n → q ≠ [] → (∀ c ∈ q, c ∉ r) →
      q.isPrefixOf (pyReplace p r t) = true → q.isPrefixOf t = true := by
  intro n
  induction n with
  | zero =>
    intro t q ht hq _ hpre
    cases t with
    | nil =>
      rw [pyReplace_nil] at hpre
      cases q with
      | nil => exact absurd rfl hq
      | cons q₀ q' => simp [List.isPrefixOf] at hpre
    | cons c rest => simp at ht
  | succ m ih =>
    intro t q ht hq hdis hpre
    cases t with
    | nil =>
      rw [pyReplace_nil] at hpre
      cases q with
      | nil => exact absurd rfl hq
      | cons q₀ q' => simp [List.isPrefixOf] at hpre
    | cons d t' =>
      rw [pyReplace_cons] at hpre
      by_cases hp : p.isPrefixOf (d :: t')
      · rw [if_pos hp] at hpre
        cases q with
        | nil => exact absurd rfl hq
        | cons q₀ q' =>
          cases r with
          | nil => exact absurd rfl hr
          | cons r₀ r' =>
            have hnotr : q₀ ∉ r₀ :: r' := hdis q₀ (List.mem_cons_self _ _)
            simp only [List.cons_append, List.isPrefixOf, Bool.and_eq_true,
              beq_iff_eq] at hpre
            obtain ⟨hEq, _⟩ := hpre
            subst hEq
            exact absurd (List.mem_cons_self _ _) hnotr
      · rw [if_neg hp] at hpre
        cases q with
        | nil => exact absurd rfl hq
        | cons q₀ q' =>
          simp only [List.isPrefixOf, Bool.and_eq_true, beq_iff_eq] at hpre ⊢
          obtain ⟨hEq, hpre'⟩ := hpre
          refine ⟨hEq, ?_⟩
          by_cases hq' : q' = []
          · subst hq'
            simp [List.isPrefixOf]
          · exact ih t' q' (by simp at ht; omega) hq'
              (fun c hc => hdis c (List.mem_cons_of_mem _ hc)) hpre'

/-- Replace-all with a nonempty replacement whose characters are disjoint
from the (nonempty) pattern leaves no occurrence of the pattern behind. -/
theorem hasOccur_pyReplace_eq_false (p r : Text) (hp : p ≠ []) (hr : r ≠ [])
    (hdis : ∀ c ∈ r, c ∉ p) :
    ∀ (n : Nat) (s : Text), s.length ≤ n → hasOccur p (pyReplace p r s) = false := by
  intro n
  induction n with
  | zero =>
    intro s hs
    cases s with
    | nil =>
      rw [pyReplace_nil]
      exact hasOccur_nil_of_ne p hp
    | cons c rest => simp at hs
  | succ m ih =>
    intro s hs
    cases s with
    | nil =>
      rw [pyReplace_nil]
      exact hasOccur_nil_of_ne p hp
    | cons c rest =>
      rw [pyReplace_cons]
      by_cases hpre : p.isPrefixOf (c :: rest)
      · rw [if_pos hpre]
        exact hasOccur_append_eq_false p _ hp
          (ih (rest.drop (p.length - 1)) (by simp at hs; simp [List.length_drop]; omega))
          r hdis
      · rw [if_neg hpre]
        have hY : hasOccur p (pyReplace p r rest) = false :=
          ih rest (by simp at hs; omega)
        simp only [hasOccur, hY, Bool.or_false]
        cases p with
        | nil => exact absurd rfl hp
        | cons p₀ p' =>
          simp only [List.isPrefixOf]
          by_cases hc : p₀ = c
          · subst hc
            simp only [beq_self_eq_true, Bool.true_and]
            by_cases hq' : p' = []
            · subst hq'
              exact absurd (by simp [List.isPrefixOf]) hpre
            · have hdis' : ∀ x ∈ p', x ∉ r := by
                intro x hx hxr
                exact (hdis x hxr) (List.mem_cons_of_mem _ hx)
              cases hB : p'.isPrefixOf (pyReplace (p₀ :: p') r rest) with
              | false => rfl
              | true =>
                have hBt := isPrefixOf_pyReplace_imp (p₀ :: p') r hr rest.length rest p'
                  (le_refl _) hq' hdis' hB
                exact absurd (by simp [List.isPrefixOf, hBt]) hpre
          · simp [hc]

/-- A nonempty pattern has count zero exactly when it has no occurrence. -/
theorem pyCount_eq_zero_iff (p : Text) (hp : p ≠ []) :
    ∀ (n : Nat) (s : Text), s.length ≤ n → (pyCount p s = 0 ↔ hasOccur p s = false) := by
  intro n
  induction n with
  | zero =>
    intro s hs
    cases s with
    | nil => simp [pyCount_nil, hasOccur_nil_of_ne p hp]
    | cons c rest => simp at hs
  | succ m ih =>
    intro s hs
    cases s with
    | nil => simp [pyCount_nil, hasOccur_nil_of_ne p hp]
    | cons c rest =>
      rw [pyCount_cons]
      by_cases hpre : p.isPrefixOf (c :: rest)
      · rw [if_pos hpre]
        simp [hasOccur, hpre]
      · rw [if_neg hpre]
        simp only [hasOccur, hpre]
        rw [ih rest (by simp at hs; omega)]
        simp [hpre]

/-- Replacing cannot introduce a character that is neither in the original
text nor in the replacement. -/
theorem not_mem_pyReplace (p r : Text) (a : Char) (har : a ∉ r) :
    ∀ (n : Nat) (s : Text), s.length ≤ n → a ∉ s → a ∉ pyReplace p r s := by
  intro n
  induction n with
  | zero =>
    intro s hs _
    cases s with
    | nil => simp [pyReplace_nil]
    | cons c rest => simp at hs
  | succ m ih =>
    intro s hs has
    cases s with
    | nil => simp [pyReplace_nil]
    | cons c rest =>
      rw [pyReplace_cons]
      have hrest : a ∉ rest := fun h => has (List.mem_cons_of_mem c h)
      by_cases hpre : p.isPrefixOf (c :: rest)
      · rw [if_pos hpre]
        simp only [List.mem_append]
        rintro (h | h)
        · exact har h
        · exact ih (rest.drop (p.length - 1))
            (by simp at hs; simp [List.length_drop]; omega)
            (fun hd => hrest (List.drop_subset _ _ hd)) h
      · rw [if_neg hpre]
        simp only [List.mem_cons]
        rintro (h | h)
        · exact has (h ▸ List.mem_cons_self c rest)
        · exact ih rest (by simp at hs; omega) hrest h

/-- Sequential application distributes over table concatenation. -/
theorem applySeq_append (l₁ l₂ : List (String × String)) :
    ∀ s : Text, applySeq (l₁ ++ l₂) s = applySeq l₂ (applySeq l₁ s) := by
  induction l₁ with
  | nil => intro s; rfl
  | cons kv rest ih => intro s; simp [applySeq, ih]

/-- The pass cannot introduce a character that appears in no replacement
string and not in the input. -/
theorem not_mem_applySeq (a : Char) :
    ∀ (fixes : List (String × String)), (∀ kv ∈ fixes, a ∉ kv.2.data) →
      ∀ s : Text, a ∉ s → a ∉ applySeq fixes s := by
  intro fixes
  induction fixes with
  | nil => intro _ s has; exact has
  | cons kv rest ih =>
    intro hfix s has
    simp only [applySeq]
    exact ih (fun e he => hfix e (List.mem_cons_of_mem kv he))
      (pyReplace kv.1.data kv.2.data s)
      (not_mem_pyReplace kv.1.data kv.2.data a
        (hfix kv (List.mem_cons_self kv rest)) s.length s (le_refl _) has)


/-- A UTF-8 continuation byte. -/
def utf8Cont (b : Nat) : Bool := 0x80 ≤ b && b ≤ 0xBF

/-- Range of the second byte of a multi-byte UTF-8 sequence, per strict
(RFC 3629) decoding: excludes overlong forms, surrogates and values above
U+10FFFF, exactly as Python's strict `utf-8` codec does. -/
def utf8SecondOk (b b2 : Nat) : Bool :=
  if b == 0xE0 then 0xA0 ≤ b2 && b2 ≤ 0xBF
  else if b == 0xED then 0x80 ≤ b2 && b2 ≤ 0x9F
  else if b == 0xF0 then 0x90 ≤ b2 && b2 ≤ 0xBF
  else if b == 0xF4 then 0x80 ≤ b2 && b2 ≤ 0x8F
  else utf8Cont b2

/-- Fuel-indexed strict UTF-8 decoder (fuel only makes it structural). -/
def decodeUtf8Aux : Nat → List Nat → Option (List Char)
  | _, [] => some []
  | 0, _ => none
  | fuel + 1, b :: bs =>
    if b ≤ 0x7F then
      (decodeUtf8Aux fuel bs).map (fun cs => Char.ofNat b :: cs)
    else if 0xC2 ≤ b && b ≤ 0xDF then
      match bs with
      | b2 :: bs2 =>
        if utf8Cont b2 then
          (decodeUtf8Aux fuel bs2).map (fun cs =>
            Char.ofNat ((b - 0xC0) * 0x40 + (b2 - 0x80)) :: cs)
        else none
      | [] => none
    else if 0xE0 ≤ b && b ≤ 0xEF then
      match bs with
      | b2 :: b3 :: bs3 =>
        if utf8SecondOk b b2 && utf8Cont b3 then
          (decodeUtf8Aux fuel bs3).map (fun cs =>
            Char.ofNat ((b - 0xE0) * 0x1000 + (b2 - 0x80) * 0x40 + (b3 - 0x80)) :: cs)
        else none
      | _ => none
    else if 0xF0 ≤ b && b ≤ 0xF4 then
      match bs with
      | b2 :: b3 :: b4 :: bs4 =>
        if utf8SecondOk b b2 && utf8Cont b3 && utf8Cont b4 then
          (decodeUtf8Aux fuel bs4).map (fun cs =>
            Char.ofNat ((b - 0xF0) * 0x40000 + (b2 - 0x80) * 0x1000 +
              (b3 - 0x80) * 0x40 + (b4 - 0x80)) :: cs)
        else none
      | _ => none
    else none

/-- Model of Python `bytes.decode('utf-8')` in strict mode: `none` models a
raised `UnicodeDecodeError`. -/
def decodeUtf8 (bs : List Nat) : Option (List Char) := decodeUtf8Aux bs.length bs

/-- The Windows-1252 decoding table for one byte; the five unassigned bytes
0x81, 0x8D, 0x8F, 0x90, 0x9D decode to `none` (Python raises on them in
strict mode).  Bytes outside 0x80..0x9F map to the identical code point. -/
def cp1252DecodeByte (b : Nat) : Option Nat :=
  if b < 0x80 then some b
  else if 0xA0 ≤ b then some b
  else
    match b with
    | 0x80 => some 0x20AC
    | 0x82 => some 0x201A
    | 0x83 => some 0x0192
    | 0x84 => some 0x201E
    | 0x85 => some 0x2026
    | 0x86 => some 0x2020
    | 0x87 => some 0x2021
    | 0x88 => some 0x02C6
    | 0x89 => some 0x2030
    | 0x8A => some 0x0160
    | 0x8B => some 0x2039
    | 0x8C => some 0x0152
    | 0x8E => some 0x017D
    | 0x91 => some 0x2018
    | 0x92 => some 0x2019
    | 0x93 => some 0x201C
    | 0x94 => some 0x201D
    | 0x95 => some 0x2022
    | 0x96 => some 0x2013
    | 0x97 => some 0x2014
    | 0x98 => some 0x02DC
    | 0x99 => some 0x2122
    | 0x9A => some 0x0161
    | 0x9B => some 0x203A
    | 0x9C => some 0x0153
    | 0x9E => some 0x017E
    | 0x9F => some 0x0178
    | _ => none

/-- Model of Python `bytes.decode('windows-1252')` (= `cp1252`), strict. -/
def decodeCp1252 : List Nat → Option (List Char)
  | [] => some []
  | b :: bs =>
    match cp1252DecodeByte b with
    | some cp => (decodeCp1252 bs).map (fun cs => Char.ofNat cp :: cs)
    | none => none

/-- Model of Python `bytes.decode('iso-8859-1')`: every byte decodes to the
character with that code point; the codec is total. -/
def decodeLatin1 (bs : List Nat) : List Char := bs.map Char.ofNat

/-- Dispatch on the encoding name actually passed to `open(...)`. -/
def decodeBytes : String → List Nat → Option (List Char)
  | "utf-8", bs => decodeUtf8 bs
  | "windows-1252", bs => decodeCp1252 bs
  | "iso-8859-1", bs => some (decodeLatin1 bs)
  | "cp1252", bs => decodeCp1252 bs
  | _, _ => none

/-- The literal encoding list of `process_file` (`fix_encoding.py` line 124),
in source order. -/
def ENCODING_ORDER : List String := ["utf-8", "windows-1252", "iso-8859-1", "cp1252"]

/-- The trial-decode loop: use the first encoding that decodes without
error, remembering which encoding succeeded. -/
def tryEncodings (bs : List Nat) : List String → Option (List Char × String)
  | [] => none
  | e :: rest =>
    match decodeBytes e bs with
    | some cs => some (cs, e)
    | none => tryEncodings bs rest

/-- The decoding performed by `process_file`: `none` models the
`content is None` (unknown encoding) branch. -/
def decodeWithFallback (bs : List Nat) : Option (List Char × String) :=
  tryEncodings bs ENCODING_ORDER

/-- UTF-8 encoding of one character. -/
def encodeUtf8Char (c : Char) : List Nat :=
  let n := c.toNat
  if n ≤ 0x7F then [n]
  else if n ≤ 0x7FF then [0xC0 + n / 0x40, 0x80 + n % 0x40]
  else if n ≤ 0xFFFF then
    [0xE0 + n / 0x1000, 0x80 + n / 0x40 % 0x40, 0x80 + n % 0x40]
  else
    [0xF0 + n / 0x40000, 0x80 + n / 0x1000 % 0x40, 0x80 + n / 0x40 % 0x40,
      0x80 + n % 0x40]

/-- Model of Python `str.encode('utf-8')` / writing with `encoding='utf-8'`. -/
def encodeUtf8 (cs : Text) : List Nat := (cs.map encodeUtf8Char).flatten

/-- Universal-newline translation performed by text-mode `open(..., 'r')`:
`\r\n` and a lone `\r` both become `\n`.  (On write the model assumes a
POSIX host, where `os.linesep` is `\n` and writing translates nothing.) -/
def universalNewlines : Text → Text
  | [] => []
  | '\r' :: '\n' :: rest => '\n' :: universalNewlines rest
  | '\r' :: rest => '\n' :: universalNewlines rest
  | c :: rest => c :: universalNewlines rest


/-- The three filesystem operations of `process_file` that can raise an
`OSError`-style exception (the trial decodings handle `UnicodeDecodeError`
themselves). -/
inductive OpKind
  | readOp
  | copyOp
  | writeOp
deriving DecidableEq

/-- A fault model: which operation on which path raises an exception. -/
def Fault := String → OpKind → Bool

/-- The fault-free world. -/
def noFault : Fault := fun _ _ => false

/-- A filesystem: existing directories, and files as path/byte-list pairs
(in a fixed enumeration order standing in for `Path.rglob`). -/
structure FS where
  dirs : List String
  files : List (String × List Nat)
deriving DecidableEq

/-- Read a file's bytes. -/
def FS.lookup (fs : FS) (p : String) : Option (List Nat) :=
  (fs.files.find? (fun e => e.1 == p)).map (fun e => e.2)

/-- Create or overwrite a file. -/
def FS.write (fs : FS) (p : String) (bs : List Nat) : FS :=
  if fs.files.any (fun e => e.1 == p) then
    { fs with files := fs.files.map (fun e => if e.1 == p then (p, bs) else e) }
  else
    { fs with files := fs.files ++ [(p, bs)] }

/-- `Path.exists()` of the model. -/
def FS.pathExists (fs : FS) (p : String) : Bool :=
  fs.dirs.contains p || fs.files.any (fun e => e.1 == p)

/-- The body of the `try:` block of `process_file` (`fix_encoding.py` lines
119-165), threading the filesystem and modelling raised exceptions as
`Except.error`: read the file with the encoding-fallback chain, apply the
substitution pass, and -- when the text changed and dry-run is off -- copy
the original to `<path>.backup` (`shutil.copy2`) and overwrite the original
with the corrected text encoded as UTF-8. -/
def process_file_body (fault : Fault) (fs : FS) (path : String)
    (dryRun : Bool) : FS × Except String (Nat × Bool) :=
  if fault path OpKind.readOp then (fs, Except.error "read error")
  else
    match fs.lookup path with
    | none => (fs, Except.error "file not found")
    | some bytes =>
      match decodeWithFallback bytes with
      | none => (fs, Except.ok (0, false))
      | some (raw, _enc) =>
        if (processText ENCODING_FIXES (universalNewlines raw)).2 ≠
            universalNewlines raw then
          if !dryRun then
            if fault path OpKind.copyOp then (fs, Except.error "copy error")
            else if fault path OpKind.writeOp then
              (fs.write (path ++ ".backup") bytes, Except.error "write error")
            else
              ((fs.write (path ++ ".backup") bytes).write path
                  (encodeUtf8 (processText ENCODING_FIXES (universalNewlines raw)).2),
                Except.ok ((processText ENCODING_FIXES (universalNewlines raw)).1, true))
          else (fs, Except.ok ((processText ENCODING_FIXES (universalNewlines raw)).1, true))
        else (fs, Except.ok (0, false))

/-- `process_file` with its catch-all `except` clause: any raised exception
is reported and turned into the result `(0, False)`. -/
def process_file (fault : Fault) (fs : FS) (path : String) (dryRun : Bool) :
    FS × (Nat × Bool) :=
  match process_file_body fault fs path dryRun with
  | (fs', Except.ok r) => (fs', r)
  | (fs', Except.error _) => (fs', (0, false))

/-- The summary counters accumulated by `main`. -/
structure RunSummary where
  totalFiles : Nat
  changedFiles : Nat
  totalReplacements : Nat
deriving DecidableEq

/-- The recognized web-relevant extensions (`WEB_EXTENSIONS`). -/
def WEB_EXTENSIONS : List String := [".php", ".html", ".htm", ".css", ".js",
  ".xml", ".json"]

/-- Final path component (`PurePath.name`, POSIX flavour). -/
def pathName (p : String) : Text :=
  (p.data.reverse.takeWhile (fun c => c ≠ '/')).reverse

/-- Index of the last `.` in a character list, if any. -/
def lastDotIdx : Text → Option Nat
  | [] => none
  | c :: rest =>
    match lastDotIdx rest with
    | some i => some (i + 1)
    | none => if c = '.' then some 0 else none

/-- `PurePath.suffix`: the final extension with its dot, or empty when the
last dot is leading or trailing in the name. -/
def pathSuffix (p : String) : Text :=
  match lastDotIdx (pathName p) with
  | some i =>
    if 0 < i ∧ i < (pathName p).length - 1 then (pathName p).drop i else []
  | none => []

/-- `str.lower` on the extension (these are ASCII). -/
def asciiLower (t : Text) : Text := t.map Char.toLower

/-- `file_path.suffix.lower() in WEB_EXTENSIONS`. -/
def hasWebExt (p : String) : Bool :=
  (WEB_EXTENSIONS.map String.data).contains (asciiLower (pathSuffix p))

/-- `p` lies beneath the root directory. -/
def isUnderRoot (root p : String) : Bool :=
  (root ++ "/").data.isPrefixOf p.data

/-- The files that the `rglob('*')` traversal submits to `process_file`:
regular files under the root whose lower-cased suffix is recognized, in
enumeration order. -/
def matchingFiles (fs : FS) (root : String) : List String :=
  (fs.files.map (fun e => e.1)).filter (fun p => isUnderRoot root p && hasWebExt p)

/-- One iteration of the traversal loop in `main`: process the file and
update the three counters. -/
def stepSummary (fault : Fault) (dryRun : Bool) (acc : FS × RunSummary)
    (p : String) : FS × RunSummary :=
  (let r := process_file fault acc.1 p dryRun
   (r.1, { totalFiles := acc.2.totalFiles + 1,
           changedFiles := acc.2.changedFiles + (if r.2.2 then 1 else 0),
           totalReplacements := acc.2.totalReplacements + r.2.1 }))

/-- The traversal over all matching files. -/
def runWalk (fault : Fault) (dryRun : Bool) (paths : List String)
    (acc : FS × RunSummary) : FS × RunSummary :=
  paths.foldl (stepSummary fault dryRun) acc

/-- `main`: exit code 1 when the root path does not exist, otherwise walk
every matching file and exit 0.  Returns (exit code, final filesystem,
summary). -/
def main_model (fault : Fault) (fs : FS) (root : String) (dryRun : Bool) :
    Nat × FS × RunSummary :=
  if fs.pathExists root then
    (let r := runWalk fault dryRun (matchingFiles fs root) (fs, ⟨0, 0, 0⟩)
     (0, r.1, r.2))
  else
    (1, fs, ⟨0, 0, 0⟩)


/-- Updating the entry of a present key makes lookup return the new value. -/
theorem find?_map_update_self :
    ∀ (l : List (String × List Nat)) (p : String) (bs : List Nat),
      l.any (fun e => e.1 == p) = true →
      (l.map (fun e => if e.1 == p then (p, bs) else e)).find?
          (fun e => e.1 == p) = some (p, bs) := by
  intro l p bs
  induction l with
  | nil => intro h; simp at h
  | cons e l ih =>
    intro h
    rw [List.map_cons]
    by_cases he : (e.1 == p) = true
    · rw [if_pos he]
      exact List.find?_cons_of_pos (p := fun (e : String × List Nat) => e.1 == p) _ (by simp)
    · rw [if_neg he, List.find?_cons_of_neg (p := fun (e : String × List Nat) => e.1 == p) _ he]
      refine ih ?_
      simp only [List.any_cons] at h
      rcases Bool.or_eq_true_iff.mp h with h1 | h1
      · exact absurd h1 he
      · exact h1

/-- Updating the entry of key `p` does not change lookup at a different key. -/
theorem find?_map_update_ne :
    ∀ (l : List (String × List Nat)) (p q : String) (bs : List Nat), p ≠ q →
      (l.map (fun e => if e.1 == p then (p, bs) else e)).find?
          (fun e => e.1 == q) = l.find? (fun e => e.1 == q) := by
  intro l p q bs hne
  induction l with
  | nil => rfl
  | cons e l ih =>
    rw [List.map_cons]
    by_cases hep : (e.1 == p) = true
    · have he1 : e.1 = p := by simpa using hep
      have hepq : ((e.1 == q) = true) → False := by
        intro hq
        exact hne (he1 ▸ (by simpa using hq))
      have hpq : (((p, bs).1 == q) = true) → False := by
        intro hq
        exact hne (by simpa using hq)
      rw [if_pos hep, List.find?_cons_of_neg (p := fun (e : String × List Nat) => e.1 == q) _ hpq,
        List.find?_cons_of_neg (p := fun (e : String × List Nat) => e.1 == q) _ hepq, ih]
    · rw [if_neg hep]
      by_cases heq : (e.1 == q) = true
      · rw [List.find?_cons_of_pos (p := fun (e : String × List Nat) => e.1 == q) _ heq,
          List.find?_cons_of_pos (p := fun (e : String × List Nat) => e.1 == q) _ heq]
      · rw [List.find?_cons_of_neg (p := fun (e : String × List Nat) => e.1 == q) _ heq,
          List.find?_cons_of_neg (p := fun (e : String × List Nat) => e.1 == q) _ heq, ih]

/-- Appending a new entry for an absent key makes lookup return it. -/
theorem find?_append_self :
    ∀ (l : List (String × List Nat)) (p : String) (bs : List Nat),
      l.any (fun e => e.1 == p) = false →
      (l ++ [(p, bs)]).find? (fun e => e.1 == p) = some (p, bs) := by
  intro l p bs
  induction l with
  | nil =>
    intro _
    exact List.find?_cons_of_pos (p := fun (e : String × List Nat) => e.1 == p) _ (by simp)
  | cons e l ih =>
    intro h
    simp only [List.any_cons, Bool.or_eq_false_iff] at h
    rw [List.cons_append,
      List.find?_cons_of_neg (p := fun (e : String × List Nat) => e.1 == p) _ (by simp [h.1])]
    exact ih (by simpa using h.2)

/-- Appending an entry for key `p` does not change lookup at another key. -/
theorem find?_append_ne :
    ∀ (l : List (String × List Nat)) (p q : String) (bs : List Nat), p ≠ q →
      (l ++ [(p, bs)]).find? (fun e => e.1 == q) = l.find? (fun e => e.1 == q) := by
  intro l p q bs hne
  induction l with
  | nil =>
    rw [List.nil_append]
    exact List.find?_cons_of_neg (p := fun (e : String × List Nat) => e.1 == q) _ (by simpa using hne)
  | cons e l ih =>
    rw [List.cons_append]
    by_cases heq : (e.1 == q) = true
    · rw [List.find?_cons_of_pos (p := fun (e : String × List Nat) => e.1 == q) _ heq,
        List.find?_cons_of_pos (p := fun (e : String × List Nat) => e.1 == q) _ heq]
    · rw [List.find?_cons_of_neg (p := fun (e : String × List Nat) => e.1 == q) _ heq,
        List.find?_cons_of_neg (p := fun (e : String × List Nat) => e.1 == q) _ heq, ih]

/-- Reading back a just-written file returns the written bytes. -/
theorem FS.lookup_write_self (fs : FS) (p : String) (bs : List Nat) :
    (fs.write p bs).lookup p = some bs := by
  unfold FS.write FS.lookup
  by_cases h : fs.files.any (fun e => e.1 == p) = true
  · rw [if_pos h]
    show ((fs.files.map fun e => if e.1 == p then (p, bs) else e).find?
        (fun e => e.1 == p)).map (fun e => e.2) = some bs
    rw [find?_map_update_self fs.files p bs h]
    rfl
  · rw [if_neg h]
    show ((fs.files ++ [(p, bs)]).find? (fun e => e.1 == p)).map
        (fun e => e.2) = some bs
    rw [find?_append_self fs.files p bs (Bool.not_eq_true _ ▸ h)]
    rfl

/-- Writing one path does not change the content of another. -/
theorem FS.lookup_write_ne (fs : FS) (p q : String) (bs : List Nat)
    (hne : p ≠ q) : (fs.write p bs).lookup q = fs.lookup q := by
  unfold FS.write FS.lookup
  by_cases h : fs.files.any (fun e => e.1 == p) = true
  · rw [if_pos h]
    show ((fs.files.map fun e => if e.1 == p then (p, bs) else e).find?
        (fun e => e.1 == q)).map (fun e => e.2) = _
    rw [find?_map_update_ne fs.files p q bs hne]
  · rw [if_neg h]
    show ((fs.files ++ [(p, bs)]).find? (fun e => e.1 == q)).map
        (fun e => e.2) = _
    rw [find?_append_ne fs.files p q bs hne]

/-- The backup path is distinct from the original path. -/
theorem backup_path_ne (path : String) : path ++ ".backup" ≠ path := by
  intro h
  have h2 := congrArg String.length h
  rw [String.length_append] at h2
  have h3 : String.length ".backup" = 7 := rfl
  omega


/-- If no table pattern occurs in a text, the whole pass is a no-op. -/
theorem processText_no_match :
    ∀ (fixes : List (String × String)) (t : Text),
      (∀ kv ∈ fixes, pyCount kv.1.data t = 0) → processText fixes t = (0, t) := by
  intro fixes
  induction fixes with
  | nil => intro t _; rfl
  | cons kv rest ih =>
    intro t h
    show List.foldl applyFixesStep (applyFixesStep (0, t) kv) rest = (0, t)
    have h0 : pyCount kv.1.data t = 0 := h kv (List.mem_cons_self kv rest)
    have hstep : applyFixesStep (0, t) kv = (0, t) := by
      simp [applyFixesStep, h0]
    rw [hstep]
    exact ih t (fun e he => h e (List.mem_cons_of_mem kv he))

/-- When the file is missing, the caught read error yields `(0, False)` and
an unchanged filesystem. -/
theorem process_file_noFault_no_file (fs : FS) (path : String) (dryRun : Bool)
    (hlk : fs.lookup path = none) :
    process_file noFault fs path dryRun = (fs, (0, false)) := by
  unfold process_file process_file_body
  simp [noFault, hlk]

/-- When the fallback chain fails (impossible in fact), the reported result
is `(0, False)` with an unchanged filesystem. -/
theorem process_file_noFault_undecodable (fs : FS) (path : String)
    (dryRun : Bool) (bytes : List Nat)
    (hlk : fs.lookup path = some bytes)
    (hdec : decodeWithFallback bytes = none) :
    process_file noFault fs path dryRun = (fs, (0, false)) := by
  unfold process_file process_file_body
  simp [noFault, hlk, hdec]

/-- Full characterization of fault-free `process_file` once the read and
decode results are known. -/
theorem process_file_noFault_eq (fs : FS) (path : String) (dryRun : Bool)
    (bytes : List Nat) (raw : Text) (enc : String)
    (hlk : fs.lookup path = some bytes)
    (hdec : decodeWithFallback bytes = some (raw, enc)) :
    process_file noFault fs path dryRun =
      if (processText ENCODING_FIXES (universalNewlines raw)).2 ≠
          universalNewlines raw then
        (if dryRun then
          (fs, ((processText ENCODING_FIXES (universalNewlines raw)).1, true))
        else
          ((fs.write (path ++ ".backup") bytes).write path
              (encodeUtf8 (processText ENCODING_FIXES (universalNewlines raw)).2),
            ((processText ENCODING_FIXES (universalNewlines raw)).1, true)))
      else (fs, (0, false)) := by
  unfold process_file process_file_body
  simp only [noFault, Bool.false_eq_true, if_false, hlk, hdec]
  by_cases hch : (processText ENCODING_FIXES (universalNewlines raw)).2 ≠
      universalNewlines raw
  · rw [if_pos hch, if_pos hch]
    cases dryRun <;> simp
  · rw [if_neg hch, if_neg hch]


/-- Dry-run never touches the filesystem, whatever faults occur. -/
theorem process_file_dry_fs (fault : Fault) (fs : FS) (path : String) :
    (process_file fault fs path true).1 = fs := by
  unfold process_file
  rcases hb : process_file_body fault fs path true with ⟨fs', r⟩
  suffices h : fs' = fs by
    cases r <;> simp [h]
  unfold process_file_body at hb
  simp only [Bool.not_true, Bool.false_eq_true, if_false] at hb
  repeat' split at hb
  all_goals
    injection hb with h1 h2
    exact h1.symm

/-- Any exception in the body is caught and reported as `(0, False)`. -/
theorem process_file_catch (fault : Fault) (fs : FS) (path : String)
    (dryRun : Bool) (e : String)
    (herr : (process_file_body fault fs path dryRun).2 = Except.error e) :
    process_file fault fs path dryRun =
      ((process_file_body fault fs path dryRun).1, (0, false)) := by
  unfold process_file
  rcases hb : process_file_body fault fs path dryRun with ⟨fs', r⟩
  rw [hb] at herr
  simp only at herr
  cases r with
  | ok v => exact absurd herr (by simp)
  | error msg => simp

/-- The traversal increments the scanned-files counter once per path,
whatever each `process_file` call does. -/
theorem runWalk_totalFiles (fault : Fault) (dryRun : Bool) :
    ∀ (paths : List String) (acc : FS × RunSummary),
      (runWalk fault dryRun paths acc).2.totalFiles =
        acc.2.totalFiles + paths.length := by
  intro paths
  induction paths with
  | nil => intro acc; simp [runWalk]
  | cons p rest ih =>
    intro acc
    show (runWalk fault dryRun rest (stepSummary fault dryRun acc p)).2.totalFiles = _
    rw [ih (stepSummary fault dryRun acc p)]
    simp only [stepSummary, List.length_cons]
    omega


set_option maxRecDepth 100000

/-- C1: the substitution pass of `process_file` applies every table entry in
table-iteration order in a single pass over the current in-memory text: the
final text is the sequential replace-all of the entries, each acting on the
result of the previous ones (so each entry's effect is visible to all
subsequent entries), and the returned replacement count is the sum of the
per-entry occurrence counts, each counted non-overlappingly on the text as
it stands when that entry is reached. -/
theorem claim_C1_single_pass_sum (s : Text) :
    processText ENCODING_FIXES s =
      ((perEntryCounts ENCODING_FIXES s).sum, applySeq ENCODING_FIXES s) :=
  processText_eq ENCODING_FIXES s

/-- C4 is false as stated: for the input U+00C3 U+00E2 U+20AC U+201C the
first pass rewrites the en-dash mojibake (last three characters) to U+2013,
leaving U+00C3 U+2013 -- itself a table pattern -- so the second pass
performs one further replacement (producing U+00D6) instead of zero. -/
theorem claim_C4_counterexample :
    processText ENCODING_FIXES
        (processText ENCODING_FIXES "\u00c3\u00e2\u20ac\u201c".data).2 =
      (1, "\u00d6".data) ∧
    (processText ENCODING_FIXES
        (processText ENCODING_FIXES "\u00c3\u00e2\u20ac\u201c".data).2).1 ≠ 0 := by
  exact ⟨by decide, by decide⟩

/-- C4 amended: the substitution pass is not idempotent on every input text;
a second pass is guaranteed to produce zero replacements (and leave the text
unchanged) exactly for those inputs whose first-pass result no longer
contains an occurrence of any table pattern -- which holds for
already-corrected files but fails e.g. for U+00C3 U+00E2 U+20AC U+201C. -/
theorem claim_C4_amended (s : Text)
    (h : ∀ kv ∈ ENCODING_FIXES,
      pyCount kv.1.data (processText ENCODING_FIXES s).2 = 0) :
    processText ENCODING_FIXES (processText ENCODING_FIXES s).2 =
      (0, (processText ENCODING_FIXES s).2) :=
  processText_no_match ENCODING_FIXES _ h

theorem claim_C4_witness :
    processText ENCODING_FIXES
        (processText ENCODING_FIXES "sp\u00c3\u00a4ter".data).2 =
      (0, (processText ENCODING_FIXES "sp\u00c3\u00a4ter".data).2) :=
  claim_C4_amended "sp\u00c3\u00a4ter".data (by decide)

/-- C5: the dict literal's two arrow pairs (indices 39 and 40) carry the
identical pattern U+00E2 U+2020 U+2019, mapping to the left arrow U+2190 and
the right arrow U+2192 respectively; in the realized dict the second pair
permanently shadows the first, so the pattern maps only to the right arrow,
no realized entry ever produces the left arrow, every occurrence of the
pattern is eliminated by the pass, and the left arrow never appears in an
output text unless it was already in the input. -/
theorem claim_C5_arrow_shadowing :
    (ENCODING_FIXES_SOURCE[39]? = some ("\u00e2\u2020\u2019", "\u2190") ∧
      ENCODING_FIXES_SOURCE[40]? = some ("\u00e2\u2020\u2019", "\u2192")) ∧
    ENCODING_FIXES.filter (fun kv => kv.1 == "\u00e2\u2020\u2019") =
      [("\u00e2\u2020\u2019", "\u2192")] ∧
    (∀ kv ∈ ENCODING_FIXES, kv.2 ≠ "\u2190") ∧
    (∀ s : Text,
      pyCount "\u00e2\u2020\u2019".data (processText ENCODING_FIXES s).2 = 0) ∧
    (∀ s : Text, Char.ofNat 0x2190 ∉ s →
      Char.ofNat 0x2190 ∉ (processText ENCODING_FIXES s).2) := by
  refine ⟨⟨by decide, by decide⟩, by decide, by decide, ?_, ?_⟩
  · intro s
    have h2 : (processText ENCODING_FIXES s).2 = applySeq ENCODING_FIXES s := by
      rw [processText_eq]
    have hsplit : ENCODING_FIXES =
        ENCODING_FIXES.dropLast ++ [("\u00e2\u2020\u2019", "\u2192")] := by decide
    rw [h2, hsplit, applySeq_append]
    show pyCount "\u00e2\u2020\u2019".data
        (pyReplace "\u00e2\u2020\u2019".data "\u2192".data
          (applySeq ENCODING_FIXES.dropLast s)) = 0
    exact (pyCount_eq_zero_iff "\u00e2\u2020\u2019".data (by decide) _ _
        (le_refl _)).2
      (hasOccur_pyReplace_eq_false "\u00e2\u2020\u2019".data "\u2192".data
        (by decide) (by decide) (by decide) _ _ (le_refl _))
  · intro s hs
    have h2 : (processText ENCODING_FIXES s).2 = applySeq ENCODING_FIXES s := by
      rw [processText_eq]
    rw [h2]
    exact not_mem_applySeq (Char.ofNat 0x2190) ENCODING_FIXES (by decide) s hs

theorem claim_C5_witness :
    Char.ofNat 0x2190 ∉
      (processText ENCODING_FIXES "\u00e2\u2020\u2019".data).2 :=
  claim_C5_arrow_shadowing.2.2.2.2 "\u00e2\u2020\u2019".data (by decide)

/-- C6 is false as stated: on the garbled spelling of the word "spaeter" the correction
is performed by the character-level entry U+00C3 U+00A4 (table index 9),
which precedes the word-level entry (table index 15) in iteration order; when
the word-level entry is reached it matches zero occurrences. -/
theorem claim_C6_counterexample :
    ENCODING_FIXES[9]? = some ("\u00c3\u00a4", "\u00e4") ∧
    ENCODING_FIXES[15]? = some ("sp\u00c3\u00a4ter", "sp\u00e4ter") ∧
    (perEntryCounts ENCODING_FIXES "sp\u00c3\u00a4ter".data)[9]? = some 1 ∧
    (perEntryCounts ENCODING_FIXES "sp\u00c3\u00a4ter".data)[15]? = some 0 := by
  exact ⟨by decide, by decide, by decide, by decide⟩

/-- C6 amended: the character-level entries precede the word-level entries in
table-iteration order, so for an input containing the garbled spelling of
"spaeter" the correction is performed by the character-level entry; the
word-level entry is shadowed (it counts zero occurrences), although the
final text is still the corrected word. -/
theorem claim_C6_amended :
    processText ENCODING_FIXES "sp\u00c3\u00a4ter".data =
      (1, "sp\u00e4ter".data) ∧
    (perEntryCounts ENCODING_FIXES "sp\u00c3\u00a4ter".data)[9]? = some 1 ∧
    (perEntryCounts ENCODING_FIXES "sp\u00c3\u00a4ter".data)[15]? = some 0 := by
  exact ⟨by decide, by decide, by decide⟩


/-- First trial: a UTF-8 success is used immediately. -/
theorem tryEncodings_utf8 (bs : List Nat) (cs : List Char)
    (h : decodeUtf8 bs = some cs) :
    decodeWithFallback bs = some (cs, "utf-8") := by
  unfold decodeWithFallback ENCODING_ORDER
  simp only [tryEncodings]
  rw [show decodeBytes "utf-8" bs = decodeUtf8 bs from rfl, h]

/-- Second trial: windows-1252 is used when UTF-8 fails. -/
theorem tryEncodings_win1252 (bs : List Nat) (cs : List Char)
    (h1 : decodeUtf8 bs = none) (h2 : decodeCp1252 bs = some cs) :
    decodeWithFallback bs = some (cs, "windows-1252") := by
  unfold decodeWithFallback ENCODING_ORDER
  simp only [tryEncodings]
  rw [show decodeBytes "utf-8" bs = decodeUtf8 bs from rfl, h1,
    show decodeBytes "windows-1252" bs = decodeCp1252 bs from rfl, h2]

/-- Third trial: iso-8859-1 is used when the first two fail; it is total. -/
theorem tryEncodings_latin1 (bs : List Nat)
    (h1 : decodeUtf8 bs = none) (h2 : decodeCp1252 bs = none) :
    decodeWithFallback bs = some (decodeLatin1 bs, "iso-8859-1") := by
  unfold decodeWithFallback ENCODING_ORDER
  simp only [tryEncodings]
  rw [show decodeBytes "utf-8" bs = decodeUtf8 bs from rfl, h1,
    show decodeBytes "windows-1252" bs = decodeCp1252 bs from rfl, h2,
    show decodeBytes "iso-8859-1" bs = some (decodeLatin1 bs) from rfl]

/-- C7: `process_file` tries exactly utf-8, windows-1252, iso-8859-1, cp1252
in strict order and uses the first encoding that decodes without error; in
particular any byte sequence (all are iso-8859-1-decodable) that utf-8
cannot decode still decodes via the fallback chain instead of being a read
failure. -/
theorem claim_C7_strict_decode_order :
    (∀ (bs : List Nat) (cs : List Char), decodeUtf8 bs = some cs →
      decodeWithFallback bs = some (cs, "utf-8")) ∧
    (∀ (bs : List Nat) (cs : List Char), decodeUtf8 bs = none →
      decodeCp1252 bs = some cs →
      decodeWithFallback bs = some (cs, "windows-1252")) ∧
    (∀ bs : List Nat, decodeUtf8 bs = none → decodeCp1252 bs = none →
      decodeWithFallback bs = some (decodeLatin1 bs, "iso-8859-1")) ∧
    (∀ bs : List Nat, decodeUtf8 bs = none →
      ∃ r, decodeWithFallback bs = some r) := by
  refine ⟨tryEncodings_utf8, tryEncodings_win1252, tryEncodings_latin1, ?_⟩
  intro bs h1
  rcases h2 : decodeCp1252 bs with _ | cs
  · exact ⟨_, tryEncodings_latin1 bs h1 h2⟩
  · exact ⟨_, tryEncodings_win1252 bs cs h1 h2⟩

theorem claim_C7_witness :
    decodeWithFallback [0x81] = some (decodeLatin1 [0x81], "iso-8859-1") :=
  claim_C7_strict_decode_order.2.2.1 [0x81] (by decide) (by decide)

/-- C10: the fallback loop always succeeds before exhausting its list,
because iso-8859-1 decodes every byte sequence; the unknown-encoding branch
(`content is None`, reporting `UndecodableFile`) is therefore unreachable,
and the trailing cp1252 trial is dead code: the encoding that succeeds is
never "cp1252". -/
theorem claim_C10_fallback_total (bs : List Nat) :
    decodeWithFallback bs ≠ none ∧
    (∀ (cs : List Char) (e : String), decodeWithFallback bs = some (cs, e) →
      e ≠ "cp1252") := by
  rcases hu : decodeUtf8 bs with _ | cs₀
  · rcases hc : decodeCp1252 bs with _ | cs₁
    · have h := tryEncodings_latin1 bs hu hc
      refine ⟨by rw [h]; simp, ?_⟩
      intro cs e he
      rw [h] at he
      simp only [Option.some_inj, Prod.mk.injEq] at he
      rw [← he.2]
      decide
    · have h := tryEncodings_win1252 bs cs₁ hu hc
      refine ⟨by rw [h]; simp, ?_⟩
      intro cs e he
      rw [h] at he
      simp only [Option.some_inj, Prod.mk.injEq] at he
      rw [← he.2]
      decide
  · have h := tryEncodings_utf8 bs cs₀ hu
    refine ⟨by rw [h]; simp, ?_⟩
    intro cs e he
    rw [h] at he
    simp only [Option.some_inj, Prod.mk.injEq] at he
    rw [← he.2]
    decide

theorem claim_C10_witness :
    ("iso-8859-1" : String) ≠ "cp1252" :=
  (claim_C10_fallback_total [0x81]).2 (decodeLatin1 [0x81]) "iso-8859-1"
    (by decide)

/-- C2: in live (non-dry-run) mode, whenever `process_file` reports the file
as changed, the post-state filesystem contains a file at
`<path> ++ ".backup"` whose content is byte-identical to the file's pre-run
bytes: the original content is never lost on a successful write. -/
theorem claim_C2_backup_preserves_content (fs : FS) (path : String)
    (bytes : List Nat) (hlk : fs.lookup path = some bytes)
    (hch : (process_file noFault fs path false).2.2 = true) :
    (process_file noFault fs path false).1.lookup (path ++ ".backup") =
      some bytes := by
  rcases hdec : decodeWithFallback bytes with _ | ⟨raw, enc⟩
  · rw [process_file_noFault_undecodable fs path false bytes hlk hdec] at hch
    simp at hch
  · have heq := process_file_noFault_eq fs path false bytes raw enc hlk hdec
    by_cases hne : (processText ENCODING_FIXES (universalNewlines raw)).2 ≠
        universalNewlines raw
    · rw [if_pos hne, if_neg (by simp)] at heq
      rw [heq]
      show ((fs.write (path ++ ".backup") bytes).write path
          (encodeUtf8 (processText ENCODING_FIXES (universalNewlines raw)).2)).lookup
          (path ++ ".backup") = some bytes
      rw [FS.lookup_write_ne _ path (path ++ ".backup") _
        (Ne.symm (backup_path_ne path))]
      exact FS.lookup_write_self fs (path ++ ".backup") bytes
    · rw [if_neg hne] at heq
      rw [heq] at hch
      simp at hch

theorem claim_C2_witness :
    (process_file noFault (FS.mk ["r"] [("r/a.php", [0xC3, 0x83, 0xC2, 0xBC])])
        "r/a.php" false).1.lookup ("r/a.php" ++ ".backup") =
      some [0xC3, 0x83, 0xC2, 0xBC] :=
  claim_C2_backup_preserves_content _ "r/a.php" _ (by decide) (by decide)

/-- C8: whenever the live fault-free run rewrites a file, the bytes persisted
at the original path are the UTF-8 encoding of the corrected text, whatever
encoding `enc` was detected for the input. -/
theorem claim_C8_rewrites_as_utf8 (fs : FS) (path : String)
    (bytes : List Nat) (raw : Text) (enc : String)
    (hlk : fs.lookup path = some bytes)
    (hdec : decodeWithFallback bytes = some (raw, enc))
    (hch : (process_file noFault fs path false).2.2 = true) :
    (process_file noFault fs path false).1.lookup path =
      some (encodeUtf8 (processText ENCODING_FIXES (universalNewlines raw)).2) := by
  have heq := process_file_noFault_eq fs path false bytes raw enc hlk hdec
  by_cases hne : (processText ENCODING_FIXES (universalNewlines raw)).2 ≠
      universalNewlines raw
  · rw [if_pos hne, if_neg (by simp)] at heq
    rw [heq]
    exact FS.lookup_write_self _ path _
  · rw [if_neg hne] at heq
    rw [heq] at hch
    simp at hch

theorem claim_C8_witness :
    (process_file noFault (FS.mk ["r"] [("r/b.php", [0xC3, 0x83, 0xC2, 0xBC])])
        "r/b.php" false).1.lookup "r/b.php" =
      some (encodeUtf8 (processText ENCODING_FIXES
        (universalNewlines "\u00c3\u00bc".data)).2) :=
  claim_C8_rewrites_as_utf8 _ "r/b.php" [0xC3, 0x83, 0xC2, 0xBC] "\u00c3\u00bc".data
    "utf-8" (by decide) (by decide) (by decide)

/-- C3: dry-run performs no filesystem modification of any kind -- whatever
faults occur -- and (fault-free) still returns exactly the
(replacement count, changed) pair that a live run on the same input
reports. -/
theorem claim_C3_dry_run_frame :
    (∀ (fault : Fault) (fs : FS) (path : String),
      (process_file fault fs path true).1 = fs) ∧
    (∀ (fs : FS) (path : String),
      process_file noFault fs path true =
        (fs, (process_file noFault fs path false).2)) := by
  refine ⟨process_file_dry_fs, ?_⟩
  intro fs path
  rcases hlk : fs.lookup path with _ | bytes
  · rw [process_file_noFault_no_file fs path true hlk,
      process_file_noFault_no_file fs path false hlk]
  · rcases hdec : decodeWithFallback bytes with _ | ⟨raw, enc⟩
    · rw [process_file_noFault_undecodable fs path true bytes hlk hdec,
        process_file_noFault_undecodable fs path false bytes hlk hdec]
    · have ht := process_file_noFault_eq fs path true bytes raw enc hlk hdec
      have hf := process_file_noFault_eq fs path false bytes raw enc hlk hdec
      by_cases hne : (processText ENCODING_FIXES (universalNewlines raw)).2 ≠
          universalNewlines raw
      · rw [if_pos hne, if_pos (by simp)] at ht
        rw [if_pos hne, if_neg (by simp)] at hf
        rw [ht, hf]
      · rw [if_neg hne] at ht hf
        rw [ht, hf]

/-- C9: every exception raised while reading, backing up or writing a single
file is caught inside `process_file` and turned into `(0, False)`; the
program's exit code is 1 exactly when the root path does not exist and 0
otherwise; and when the root exists the traversal still reaches every
matching file, whatever per-file faults occur. -/
theorem claim_C9_error_isolation_exit_codes :
    (∀ (fault : Fault) (fs : FS) (path : String) (dryRun : Bool) (e : String),
      (process_file_body fault fs path dryRun).2 = Except.error e →
      (process_file fault fs path dryRun).2 = (0, false)) ∧
    (∀ (fault : Fault) (fs : FS) (root : String) (dryRun : Bool),
      (main_model fault fs root dryRun).1 =
        (if fs.pathExists root then 0 else 1)) ∧
    (∀ (fault : Fault) (fs : FS) (root : String) (dryRun : Bool),
      fs.pathExists root = true →
      (main_model fault fs root dryRun).2.2.totalFiles =
        (matchingFiles fs root).length) := by
  refine ⟨?_, ?_, ?_⟩
  · intro fault fs path dryRun e herr
    rw [process_file_catch fault fs path dryRun e herr]
  · intro fault fs root dryRun
    unfold main_model
    by_cases h : fs.pathExists root = true
    · rw [if_pos h, if_pos h]
    · rw [if_neg h, if_neg h]
  · intro fault fs root dryRun h
    unfold main_model
    rw [if_pos h]
    show (runWalk fault dryRun (matchingFiles fs root)
      (fs, ⟨0, 0, 0⟩)).2.totalFiles = _
    rw [runWalk_totalFiles]
    simp

theorem claim_C9_witness :
    (process_file (fun _ _ => true) (FS.mk [] []) "a.php" false).2 =
      (0, false) :=
  claim_C9_error_isolation_exit_codes.1 (fun _ _ => true) (FS.mk [] [])
    "a.php" false "read error" rfl

